import Mathlib

/-!
Shallow embedding of the `business-rs` repository's business-day calendars.

The repository contains two variants of the `Calendar` module:
  * `src/calendar.rs` — working days as a `Vec<Weekday>`, holiday and
    extra-working-date `HashSet`s, a fallible constructor `try_new`, and a
    defaulting conversion from `CalendarUnchecked`;
  * `src/lib.rs` — the crate root: working days as a `HashSet<Weekday>`,
    holidays, no extra working dates, infallible constructors.

Dates are embedded as integers (day numbers); `chrono::NaiveDate` supports
exactly the operations used by the code — adding a signed number of days and
reading the weekday, with the weekday advancing cyclically — so the embedding
fixes day 0 to be a Monday.  Every `while`/`loop` in the source is embedded
as a fuel-indexed recursion returning `Option`, `none` meaning the fuel ran
out before the loop finished.
-/

namespace Business

/-- The seven weekdays, as in `chrono::Weekday` (`Mon` … `Sun`). -/
inductive Weekday where
  | mon | tue | wed | thu | fri | sat | sun
deriving DecidableEq

/-- Embedding of `chrono::Weekday::num_days_from_monday`. -/
def Weekday.toNat : Weekday → ℕ
  | .mon => 0
  | .tue => 1
  | .wed => 2
  | .thu => 3
  | .fri => 4
  | .sat => 5
  | .sun => 6

/-- The weekday of a day number: `chrono` weekday arithmetic, with day 0
fixed to Monday. -/
def weekday (d : ℤ) : Weekday :=
  match (d % 7).toNat with
  | 0 => .mon
  | 1 => .tue
  | 2 => .wed
  | 3 => .thu
  | 4 => .fri
  | 5 => .sat
  | _ => .sun

namespace CalendarRs

/-- From `src/calendar.rs`: the `Calendar` struct (`working_days: Vec<Weekday>`,
`holidays: HashSet<NaiveDate>`, `extra_working_dates: HashSet<NaiveDate>`). -/
structure Calendar where
  working_days : List Weekday
  holidays : Finset ℤ
  extra_working_dates : Finset ℤ

/-- From `src/calendar.rs`: the `WORK_WEEK` constant. -/
def WORK_WEEK : List Weekday := [.mon, .tue, .wed, .thu, .fri]

/-- From `src/calendar.rs`: `Calendar::try_new`.  Collects the holiday and
extra-working-date lists into sets and fails iff the two sets are not
disjoint (`HashSet::is_disjoint` = empty intersection). -/
def try_new (working_days : List Weekday) (holidays : List ℤ)
    (extra_working_dates : List ℤ) : Except String Calendar :=
  let hs := holidays.toFinset
  let es := extra_working_dates.toFinset
  if hs ∩ es = ∅ then
    Except.ok ⟨working_days, hs, es⟩
  else
    Except.error "Holidays cannot be extra working days"

/-- From `src/calendar.rs`: `Calendar::is_working_day`:
`extra_working_dates.contains(date) || working_days.contains(&date.weekday())`. -/
def is_working_day (c : Calendar) (d : ℤ) : Bool :=
  decide (d ∈ c.extra_working_dates) || decide (weekday d ∈ c.working_days)

/-- From `src/calendar.rs`: `Calendar::is_business_day`:
`is_working_day(date) && !holidays.contains(date)`. -/
def is_business_day (c : Calendar) (d : ℤ) : Bool :=
  is_working_day c d && !(decide (d ∈ c.holidays))

/-- From `src/calendar.rs`: `Calendar::roll_forward`:
`while !is_business_day(result) { result += 1 }`, with explicit fuel. -/
def roll_forward (c : Calendar) : ℕ → ℤ → Option ℤ
  | 0, _ => none
  | fuel + 1, d =>
    if is_business_day c d then some d else roll_forward c fuel (d + 1)

/-- From `src/calendar.rs`: `Calendar::roll_backward`:
`while !is_business_day(result) { result -= 1 }`, with explicit fuel. -/
def roll_backward (c : Calendar) : ℕ → ℤ → Option ℤ
  | 0, _ => none
  | fuel + 1, d =>
    if is_business_day c d then some d else roll_backward c fuel (d - 1)

/-- From `src/calendar.rs`: `Calendar::next_business_day`:
`loop { result += 1; if is_business_day(result) { break } }`. -/
def next_business_day (c : Calendar) : ℕ → ℤ → Option ℤ
  | 0, _ => none
  | fuel + 1, d =>
    if is_business_day c (d + 1) then some (d + 1)
    else next_business_day c fuel (d + 1)

/-- From `src/calendar.rs`: `Calendar::previous_business_day`:
`loop { result -= 1; if is_business_day(result) { break } }`. -/
def previous_business_day (c : Calendar) : ℕ → ℤ → Option ℤ
  | 0, _ => none
  | fuel + 1, d =>
    if is_business_day c (d - 1) then some (d - 1)
    else previous_business_day c fuel (d - 1)

/-- The `for _ in 0..delta { result = next_business_day(result) }` loop of
`Calendar::add_business_days`. -/
def add_loop (c : Calendar) (fuel : ℕ) : ℕ → ℤ → Option ℤ
  | 0, r => some r
  | n + 1, r => (next_business_day c fuel r).bind (add_loop c fuel n)

/-- From `src/calendar.rs`: `Calendar::add_business_days`: anchor with
`roll_forward`, then step with `next_business_day` `delta` times. -/
def add_business_days (c : Calendar) (fuel : ℕ) (d : ℤ) (delta : ℕ) :
    Option ℤ :=
  (roll_forward c fuel d).bind (add_loop c fuel delta)

/-- The `for _ in 0..delta { result = previous_business_day(result) }` loop of
`Calendar::subtract_business_days`. -/
def sub_loop (c : Calendar) (fuel : ℕ) : ℕ → ℤ → Option ℤ
  | 0, r => some r
  | n + 1, r => (previous_business_day c fuel r).bind (sub_loop c fuel n)

/-- From `src/calendar.rs`: `Calendar::subtract_business_days`.  NOTE: the source
anchors with `roll_forward` (`let mut result = self.roll_forward(&date);`),
not `roll_backward`. -/
def subtract_business_days (c : Calendar) (fuel : ℕ) (d : ℤ) (delta : ℕ) :
    Option ℤ :=
  (roll_forward c fuel d).bind (sub_loop c fuel delta)

/-- From `src/calendar.rs`: the `CalendarUnchecked` struct of optional raw
fields, deserialized from the structured config before validation. -/
structure CalendarUnchecked where
  working_days : Option (List Weekday)
  holidays : Option (List ℤ)
  extra_working_dates : Option (List ℤ)

/-- From `src/calendar.rs`: `TryFrom<CalendarUnchecked> for Calendar`: apply the
defaults (`WORK_WEEK`, empty, empty) and run `try_new`. -/
def calendar_try_from (cal : CalendarUnchecked) : Except String Calendar :=
  try_new (cal.working_days.getD WORK_WEEK) (cal.holidays.getD [])
    (cal.extra_working_dates.getD [])

/-- Iteration helper: `applyN f n d` applies the fallible step `f` to `d`, `n` times
(outside-in).  Used to state that `add_business_days` is `n` iterated
applications of `next_business_day` after the `roll_forward` anchor. -/
def applyN (f : ℤ → Option ℤ) : ℕ → ℤ → Option ℤ
  | 0, d => some d
  | n + 1, d => (applyN f n d).bind f

/-- The Mon–Fri calendar with no holidays and no extra working dates,
i.e. the result of `try_new(WORK_WEEK.to_vec(), vec![], vec![])`. -/
def workweekCal : Calendar := ⟨WORK_WEEK, ∅, ∅⟩

end CalendarRs

namespace LibRs

/-- From `src/lib.rs`: the crate-root `Calendar` struct
(`working_days: HashSet<Weekday>`, `holidays: HashSet<NaiveDate>`). -/
structure Calendar where
  working_days : Finset Weekday
  holidays : Finset ℤ

/-- From `src/lib.rs`: the `workweek()` helper (Mon–Fri). -/
def workweek : Calendar :=
  ⟨{.mon, .tue, .wed, .thu, .fri}, ∅⟩

/-- From `src/lib.rs`: `Calendar::with_holidays`. -/
def with_holidays (holidays : List ℤ) : Calendar :=
  ⟨({.mon, .tue, .wed, .thu, .fri} : Finset Weekday), holidays.toFinset⟩

/-- From `src/lib.rs`: `Calendar::is_business_day`:
`working_days.contains(weekday) && !holidays.contains(date)`. -/
def is_business_day (c : Calendar) (d : ℤ) : Bool :=
  decide (weekday d ∈ c.working_days) && !(decide (d ∈ c.holidays))

/-- From `src/lib.rs`: `Calendar::roll_backward`, with explicit fuel. -/
def roll_backward (c : Calendar) : ℕ → ℤ → Option ℤ
  | 0, _ => none
  | fuel + 1, d =>
    if is_business_day c d then some d else roll_backward c fuel (d - 1)

/-- From `src/lib.rs`: `Calendar::previous_business_day`, with explicit fuel. -/
def previous_business_day (c : Calendar) : ℕ → ℤ → Option ℤ
  | 0, _ => none
  | fuel + 1, d =>
    if is_business_day c (d - 1) then some (d - 1)
    else previous_business_day c fuel (d - 1)

/-- The `for _ in 0..delta` loop of `lib.rs`'s `subtract_business_days`. -/
def sub_loop (c : Calendar) (fuel : ℕ) : ℕ → ℤ → Option ℤ
  | 0, r => some r
  | n + 1, r => (previous_business_day c fuel r).bind (sub_loop c fuel n)

/-- From `src/lib.rs`: `Calendar::subtract_business_days`: anchor with
`roll_backward` (`let mut result = self.roll_backward(date);`), then step
with `previous_business_day` `delta` times. -/
def subtract_business_days (c : Calendar) (fuel : ℕ) (d : ℤ) (delta : ℕ) :
    Option ℤ :=
  (roll_backward c fuel d).bind (sub_loop c fuel delta)

/-- In the crate root `lib.rs`, `subtract_business_days` with `delta = 0`
is exactly `roll_backward`: the published library anchors subtraction
backward, as its doc examples assert. -/
theorem subtract_business_days_zero (c : Calendar) (fuel : ℕ) (d : ℤ) :
    subtract_business_days c fuel d 0 = roll_backward c fuel d := by
  unfold subtract_business_days
  cases roll_backward c fuel d <;> rfl

end LibRs

/-! ### Weekday arithmetic -/

theorem Weekday.toNat_lt (w : Weekday) : w.toNat < 7 := by
  cases w <;> simp [Weekday.toNat]

theorem Weekday.toNat_inj {v w : Weekday} (h : v.toNat = w.toNat) : v = w := by
  cases v <;> cases w <;> simp_all [Weekday.toNat]

theorem weekday_toNat (d : ℤ) : (weekday d).toNat = (d % 7).toNat := by
  have h0 : (0 : ℤ) ≤ d % 7 := Int.emod_nonneg d (by norm_num)
  have h7 : d % 7 < 7 := Int.emod_lt_of_pos d (by norm_num)
  have hn7 : (d % 7).toNat < 7 := by omega
  unfold weekday
  set n := (d % 7).toNat with hdef
  interval_cases n <;> rfl

theorem weekday_eq_iff (d : ℤ) (w : Weekday) :
    weekday d = w ↔ d % 7 = (w.toNat : ℤ) := by
  have h0 : (0 : ℤ) ≤ d % 7 := Int.emod_nonneg d (by norm_num)
  constructor
  · intro h
    have ht := weekday_toNat d
    rw [h] at ht
    omega
  · intro h
    apply Weekday.toNat_inj
    rw [weekday_toNat]
    omega

/-- Going forward, every weekday occurs within the next 7 days. -/
theorem exists_weekday_fwd (d : ℤ) (w : Weekday) :
    ∃ k : ℕ, k < 7 ∧ weekday (d + k) = w := by
  have hw := w.toNat_lt
  refine ⟨(((w.toNat : ℤ) - d) % 7).toNat, by omega, ?_⟩
  rw [weekday_eq_iff]
  omega

/-- Going backward, every weekday occurs within the previous 7 days. -/
theorem exists_weekday_bwd (d : ℤ) (w : Weekday) :
    ∃ k : ℕ, k < 7 ∧ weekday (d - k) = w := by
  have hw := w.toNat_lt
  refine ⟨((d - (w.toNat : ℤ)) % 7).toNat, by omega, ?_⟩
  rw [weekday_eq_iff]
  omega

namespace CalendarRs

/-! ### Characterisation of the membership test -/

theorem is_business_day_iff (c : Calendar) (d : ℤ) :
    is_business_day c d = true ↔
      (d ∈ c.extra_working_dates ∨ weekday d ∈ c.working_days) ∧
        d ∉ c.holidays := by
  simp [is_business_day, is_working_day]

theorem mem_holidays_of_working_not_business (c : Calendar) (d : ℤ)
    (hb : is_business_day c d = false) (hw : weekday d ∈ c.working_days) :
    d ∈ c.holidays := by
  by_contra hmem
  have : is_business_day c d = true :=
    (is_business_day_iff c d).mpr ⟨Or.inr hw, hmem⟩
  simp_all

/-! ### Existence of business days in a bounded window

If the working-day list is non-empty, each block of 7 consecutive days
contains a day whose weekday is a working day; at most `holidays.card` of
those can be holidays, so a business day occurs within
`7 * (holidays.card + 1)` days in either direction. -/

theorem exists_business_fwd (c : Calendar) (hne : c.working_days ≠ []) (d : ℤ) :
    ∃ j : ℕ, j < 7 * (c.holidays.card + 1) ∧
      is_business_day c (d + j) = true := by
  obtain ⟨w, hwmem⟩ := List.exists_mem_of_ne_nil c.working_days hne
  by_contra hcon
  push_neg at hcon
  have hch : ∀ i : ℕ, ∃ l : ℕ, l < 7 ∧ weekday (d + 7 * i + l) = w := by
    intro i
    obtain ⟨l, hl7, hlw⟩ := exists_weekday_fwd (d + 7 * i) w
    exact ⟨l, hl7, hlw⟩
  choose l hl7 hlw using hch
  have hmap : ∀ i ∈ Finset.range (c.holidays.card + 1),
      d + 7 * (i : ℤ) + (l i : ℤ) ∈ c.holidays := by
    intro i hi
    rw [Finset.mem_range] at hi
    have hli := hl7 i
    have hj := hcon (7 * i + l i) (by omega)
    have hcast : d + ((7 * i + l i : ℕ) : ℤ) = d + 7 * (i : ℤ) + (l i : ℤ) := by
      push_cast
      ring
    rw [hcast] at hj
    apply mem_holidays_of_working_not_business c _ (by simpa using hj)
    rw [hlw i]
    exact hwmem
  have hinj : Set.InjOn (fun i : ℕ => d + 7 * (i : ℤ) + (l i : ℤ))
      (Finset.range (c.holidays.card + 1)) := by
    intro a ha b hb hab
    have hab' : d + 7 * (a : ℤ) + (l a : ℤ) = d + 7 * (b : ℤ) + (l b : ℤ) := hab
    have hla := hl7 a
    have hlb := hl7 b
    omega
  have hle := Finset.card_le_card_of_injOn _ hmap hinj
  rw [Finset.card_range] at hle
  omega

theorem exists_business_bwd (c : Calendar) (hne : c.working_days ≠ []) (d : ℤ) :
    ∃ j : ℕ, j < 7 * (c.holidays.card + 1) ∧
      is_business_day c (d - j) = true := by
  obtain ⟨w, hwmem⟩ := List.exists_mem_of_ne_nil c.working_days hne
  by_contra hcon
  push_neg at hcon
  have hch : ∀ i : ℕ, ∃ l : ℕ, l < 7 ∧ weekday (d - 7 * i - l) = w := by
    intro i
    obtain ⟨l, hl7, hlw⟩ := exists_weekday_bwd (d - 7 * i) w
    exact ⟨l, hl7, hlw⟩
  choose l hl7 hlw using hch
  have hmap : ∀ i ∈ Finset.range (c.holidays.card + 1),
      d - 7 * (i : ℤ) - (l i : ℤ) ∈ c.holidays := by
    intro i hi
    rw [Finset.mem_range] at hi
    have hli := hl7 i
    have hj := hcon (7 * i + l i) (by omega)
    have hcast : d - ((7 * i + l i : ℕ) : ℤ) = d - 7 * (i : ℤ) - (l i : ℤ) := by
      push_cast
      ring
    rw [hcast] at hj
    apply mem_holidays_of_working_not_business c _ (by simpa using hj)
    rw [hlw i]
    exact hwmem
  have hinj : Set.InjOn (fun i : ℕ => d - 7 * (i : ℤ) - (l i : ℤ))
      (Finset.range (c.holidays.card + 1)) := by
    intro a ha b hb hab
    have hab' : d - 7 * (a : ℤ) - (l a : ℤ) = d - 7 * (b : ℤ) - (l b : ℤ) := hab
    have hla := hl7 a
    have hlb := hl7 b
    omega
  have hle := Finset.card_le_card_of_injOn _ hmap hinj
  rw [Finset.card_range] at hle
  omega

/-! ### The loops succeed given enough fuel -/

theorem roll_forward_some (c : Calendar) :
    ∀ (fuel j : ℕ) (d : ℤ), j < fuel → is_business_day c (d + j) = true →
      ∃ r, roll_forward c fuel d = some r := by
  intro fuel
  induction fuel with
  | zero => intro j d hj hb; omega
  | succ n ih =>
    intro j d hj hb
    by_cases h : is_business_day c d = true
    · exact ⟨d, by simp [roll_forward, h]⟩
    · rcases j with _ | j'
      · exact absurd (by simpa using hb) h
      · have hb' : is_business_day c ((d + 1) + (j' : ℤ)) = true := by
          have hc : (d + 1) + (j' : ℤ) = d + ((j' + 1 : ℕ) : ℤ) := by
            push_cast
            ring
          rw [hc]
          exact hb
        obtain ⟨r, hr⟩ := ih j' (d + 1) (by omega) hb'
        exact ⟨r, by simp [roll_forward, h, hr]⟩

theorem roll_backward_some (c : Calendar) :
    ∀ (fuel j : ℕ) (d : ℤ), j < fuel → is_business_day c (d - j) = true →
      ∃ r, roll_backward c fuel d = some r := by
  intro fuel
  induction fuel with
  | zero => intro j d hj hb; omega
  | succ n ih =>
    intro j d hj hb
    by_cases h : is_business_day c d = true
    · exact ⟨d, by simp [roll_backward, h]⟩
    · rcases j with _ | j'
      · exact absurd (by simpa using hb) h
      · have hb' : is_business_day c ((d - 1) - (j' : ℤ)) = true := by
          have hc : (d - 1) - (j' : ℤ) = d - ((j' + 1 : ℕ) : ℤ) := by
            push_cast
            ring
          rw [hc]
          exact hb
        obtain ⟨r, hr⟩ := ih j' (d - 1) (by omega) hb'
        exact ⟨r, by simp [roll_backward, h, hr]⟩

theorem next_business_day_some (c : Calendar) :
    ∀ (fuel j : ℕ) (d : ℤ), j < fuel → is_business_day c (d + 1 + j) = true →
      ∃ r, next_business_day c fuel d = some r := by
  intro fuel
  induction fuel with
  | zero => intro j d hj hb; omega
  | succ n ih =>
    intro j d hj hb
    by_cases h : is_business_day c (d + 1) = true
    · exact ⟨d + 1, by simp [next_business_day, h]⟩
    · rcases j with _ | j'
      · exact absurd (by simpa using hb) h
      · have hb' : is_business_day c ((d + 1) + 1 + (j' : ℤ)) = true := by
          have hc : (d + 1) + 1 + (j' : ℤ) = d + 1 + ((j' + 1 : ℕ) : ℤ) := by
            push_cast
            ring
          rw [hc]
          exact hb
        obtain ⟨r, hr⟩ := ih j' (d + 1) (by omega) hb'
        exact ⟨r, by simp [next_business_day, h, hr]⟩

theorem previous_business_day_some (c : Calendar) :
    ∀ (fuel j : ℕ) (d : ℤ), j < fuel → is_business_day c (d - 1 - j) = true →
      ∃ r, previous_business_day c fuel d = some r := by
  intro fuel
  induction fuel with
  | zero => intro j d hj hb; omega
  | succ n ih =>
    intro j d hj hb
    by_cases h : is_business_day c (d - 1) = true
    · exact ⟨d - 1, by simp [previous_business_day, h]⟩
    · rcases j with _ | j'
      · exact absurd (by simpa using hb) h
      · have hb' : is_business_day c ((d - 1) - 1 - (j' : ℤ)) = true := by
          have hc : (d - 1) - 1 - (j' : ℤ) = d - 1 - ((j' + 1 : ℕ) : ℤ) := by
            push_cast
            ring
          rw [hc]
          exact hb
        obtain ⟨r, hr⟩ := ih j' (d - 1) (by omega) hb'
        exact ⟨r, by simp [previous_business_day, h, hr]⟩

/-! ### What the loops return -/

theorem roll_forward_business (c : Calendar) :
    ∀ (fuel : ℕ) (d r : ℤ), roll_forward c fuel d = some r →
      is_business_day c r = true := by
  intro fuel
  induction fuel with
  | zero => intro d r h; simp [roll_forward] at h
  | succ n ih =>
    intro d r h
    by_cases hb : is_business_day c d = true
    · simp [roll_forward, hb] at h
      rw [← h]
      exact hb
    · simp [roll_forward, hb] at h
      exact ih (d + 1) r h

theorem roll_backward_business (c : Calendar) :
    ∀ (fuel : ℕ) (d r : ℤ), roll_backward c fuel d = some r →
      is_business_day c r = true := by
  intro fuel
  induction fuel with
  | zero => intro d r h; simp [roll_backward] at h
  | succ n ih =>
    intro d r h
    by_cases hb : is_business_day c d = true
    · simp [roll_backward, hb] at h
      rw [← h]
      exact hb
    · simp [roll_backward, hb] at h
      exact ih (d - 1) r h

/-- The step `next_business_day` returns a business day, strictly later than its
input, with no business day strictly in between. -/
theorem next_business_day_spec (c : Calendar) :
    ∀ (fuel : ℕ) (d r : ℤ), next_business_day c fuel d = some r →
      is_business_day c r = true ∧ d < r ∧
        ∀ x : ℤ, d < x → x < r → is_business_day c x = false := by
  intro fuel
  induction fuel with
  | zero => intro d r h; simp [next_business_day] at h
  | succ n ih =>
    intro d r h
    by_cases hb : is_business_day c (d + 1) = true
    · simp [next_business_day, hb] at h
      refine ⟨by rw [← h]; exact hb, by omega, ?_⟩
      intro x hx1 hx2
      exfalso
      omega
    · simp [next_business_day, hb] at h
      obtain ⟨h1, h2, h3⟩ := ih (d + 1) r h
      refine ⟨h1, by omega, ?_⟩
      intro x hx1 hx2
      by_cases hx : x = d + 1
      · rw [hx]
        simpa using hb
      · exact h3 x (by omega) hx2

/-- The step `previous_business_day` returns a business day, strictly earlier than
its input, with no business day strictly in between. -/
theorem previous_business_day_spec (c : Calendar) :
    ∀ (fuel : ℕ) (d r : ℤ), previous_business_day c fuel d = some r →
      is_business_day c r = true ∧ r < d ∧
        ∀ x : ℤ, r < x → x < d → is_business_day c x = false := by
  intro fuel
  induction fuel with
  | zero => intro d r h; simp [previous_business_day] at h
  | succ n ih =>
    intro d r h
    by_cases hb : is_business_day c (d - 1) = true
    · simp [previous_business_day, hb] at h
      refine ⟨by rw [← h]; exact hb, by omega, ?_⟩
      intro x hx1 hx2
      exfalso
      omega
    · simp [previous_business_day, hb] at h
      obtain ⟨h1, h2, h3⟩ := ih (d - 1) r h
      refine ⟨h1, by omega, ?_⟩
      intro x hx1 hx2
      by_cases hx : x = d - 1
      · rw [hx]
        simpa using hb
      · exact h3 x hx1 (by omega)

theorem add_loop_business (c : Calendar) (fuel : ℕ) :
    ∀ (n : ℕ) (d r : ℤ), add_loop c fuel n d = some r →
      is_business_day c d = true → is_business_day c r = true := by
  intro n
  induction n with
  | zero =>
    intro d r h hd
    simp [add_loop] at h
    rw [← h]
    exact hd
  | succ m ih =>
    intro d r h hd
    simp [add_loop, Option.bind_eq_some] at h
    obtain ⟨x, hx, hrec⟩ := h
    exact ih x r hrec (next_business_day_spec c fuel d x hx).1

theorem sub_loop_business (c : Calendar) (fuel : ℕ) :
    ∀ (n : ℕ) (d r : ℤ), sub_loop c fuel n d = some r →
      is_business_day c d = true → is_business_day c r = true := by
  intro n
  induction n with
  | zero =>
    intro d r h hd
    simp [sub_loop] at h
    rw [← h]
    exact hd
  | succ m ih =>
    intro d r h hd
    simp [sub_loop, Option.bind_eq_some] at h
    obtain ⟨x, hx, hrec⟩ := h
    exact ih x r hrec (previous_business_day_spec c fuel d x hx).1

theorem applyN_succ_left (f : ℤ → Option ℤ) :
    ∀ (n : ℕ) (d : ℤ), applyN f (n + 1) d = (f d).bind (applyN f n) := by
  intro n
  induction n with
  | zero =>
    intro d
    cases hfd : f d <;> simp [applyN, hfd]
  | succ m ih =>
    intro d
    have h1 : applyN f (m + 1 + 1) d = (applyN f (m + 1) d).bind f := rfl
    rw [h1, ih d]
    cases hfd : f d with
    | none => rfl
    | some x => simp [applyN]

theorem add_loop_eq_applyN (c : Calendar) (fuel : ℕ) :
    ∀ (n : ℕ) (d : ℤ),
      add_loop c fuel n d = applyN (next_business_day c fuel) n d := by
  intro n
  induction n with
  | zero => intro d; rfl
  | succ m ih =>
    intro d
    rw [applyN_succ_left]
    show (next_business_day c fuel d).bind (add_loop c fuel m) =
      (next_business_day c fuel d).bind (applyN (next_business_day c fuel) m)
    cases next_business_day c fuel d with
    | none => rfl
    | some x => exact ih x

/-! ### The claims -/

/-- Claim C1 (code bug): `src/calendar.rs`'s `subtract_business_days`
anchors with `roll_forward`, not `roll_backward` as the spec states.
Failing input: the Mon–Fri workweek calendar and a Saturday (day 5 with
day 0 a Monday), `delta = 0`: the code returns the following Monday
(day 7) while `roll_backward` returns the preceding Friday (day 4). -/
theorem c1_subtract_anchor_failing_input :
    subtract_business_days workweekCal 10 5 0 = some 7 ∧
      roll_backward workweekCal 10 5 = some 4 ∧
      roll_forward workweekCal 10 5 = some 7 ∧
      is_business_day workweekCal 5 = false := by
  decide

/-- Claim C2: a date is a business day iff (its weekday is a working day
OR it is an extra working date) AND it is not a holiday. -/
theorem c2_is_business_day_characterisation (c : Calendar) (d : ℤ) :
    is_business_day c d = true ↔
      (weekday d ∈ c.working_days ∨ d ∈ c.extra_working_dates) ∧
        d ∉ c.holidays := by
  rw [is_business_day_iff]
  tauto

/-- Claim C3: `try_new` fails exactly when the holiday set and the
extra-working-date set intersect, and otherwise succeeds with the two
lists deduplicated into sets; nothing else (duplicates, empty
working-day list) causes failure. -/
theorem c3_try_new_validation (W : List Weekday) (H E : List ℤ) :
    (try_new W H E = Except.ok ⟨W, H.toFinset, E.toFinset⟩ ↔
      Disjoint H.toFinset E.toFinset) ∧
    ((∃ msg, try_new W H E = Except.error msg) ↔
      ¬ Disjoint H.toFinset E.toFinset) := by
  simp only [try_new]
  split_ifs with h
  · have hd : Disjoint H.toFinset E.toFinset :=
      Finset.disjoint_iff_inter_eq_empty.mpr h
    simp [hd]
  · have hd : ¬ Disjoint H.toFinset E.toFinset := by
      rw [Finset.disjoint_iff_inter_eq_empty]
      exact h
    simp [hd]

/-- Claim C4: given a non-empty working-day list, `next_business_day`
returns the smallest business day strictly greater than the input and
`previous_business_day` the largest strictly smaller one (with fuel
`7 * (holidays.card + 1)`, which always suffices). -/
theorem c4_next_prev_extremal (c : Calendar) (hne : c.working_days ≠ [])
    (d : ℤ) :
    (∃ r, next_business_day c (7 * (c.holidays.card + 1)) d = some r ∧
      is_business_day c r = true ∧ d < r ∧
        ∀ x : ℤ, d < x → x < r → is_business_day c x = false) ∧
    (∃ r, previous_business_day c (7 * (c.holidays.card + 1)) d = some r ∧
      is_business_day c r = true ∧ r < d ∧
        ∀ x : ℤ, r < x → x < d → is_business_day c x = false) := by
  constructor
  · obtain ⟨j, hj, hb⟩ := exists_business_fwd c hne (d + 1)
    obtain ⟨r, hr⟩ := next_business_day_some c _ j d hj hb
    exact ⟨r, hr, next_business_day_spec c _ d r hr⟩
  · obtain ⟨j, hj, hb⟩ := exists_business_bwd c hne (d - 1)
    obtain ⟨r, hr⟩ := previous_business_day_some c _ j d hj hb
    exact ⟨r, hr, previous_business_day_spec c _ d r hr⟩

/-- Witness for C4: the workweek calendar at Saturday (day 5). -/
theorem c4_witness :
    (∃ r, next_business_day workweekCal
        (7 * (workweekCal.holidays.card + 1)) 5 = some r ∧
      is_business_day workweekCal r = true ∧ (5 : ℤ) < r ∧
        ∀ x : ℤ, 5 < x → x < r → is_business_day workweekCal x = false) ∧
    (∃ r, previous_business_day workweekCal
        (7 * (workweekCal.holidays.card + 1)) 5 = some r ∧
      is_business_day workweekCal r = true ∧ r < 5 ∧
        ∀ x : ℤ, r < x → x < 5 → is_business_day workweekCal x = false) :=
  c4_next_prev_extremal workweekCal (by decide) 5

/-- Claim C5: rolling is the identity on business days. -/
theorem c5_roll_identity_on_business_days (c : Calendar) (fuel : ℕ) (d : ℤ)
    (hb : is_business_day c d = true) :
    roll_forward c (fuel + 1) d = some d ∧
      roll_backward c (fuel + 1) d = some d := by
  constructor <;> simp [roll_forward, roll_backward, hb]

/-- Witness for C5: Monday (day 0) on the workweek calendar. -/
theorem c5_witness :
    is_business_day workweekCal 0 = true ∧
      roll_forward workweekCal 1 0 = some 0 ∧
      roll_backward workweekCal 1 0 = some 0 :=
  ⟨by decide,
    (c5_roll_identity_on_business_days workweekCal 0 0 (by decide)).1,
    (c5_roll_identity_on_business_days workweekCal 0 0 (by decide)).2⟩

/-- Claim C6: whenever they return, `next_business_day` and
`previous_business_day` never return their input, even when the input is
itself a business day. -/
theorem c6_strict_stepping (c : Calendar) (fuel : ℕ) (d : ℤ) :
    (∀ r, next_business_day c fuel d = some r → r ≠ d) ∧
    (∀ r, previous_business_day c fuel d = some r → r ≠ d) := by
  constructor
  · intro r hr
    have := (next_business_day_spec c fuel d r hr).2.1
    omega
  · intro r hr
    have := (previous_business_day_spec c fuel d r hr).2.1
    omega

/-- Witness for C6: Monday (day 0), itself a business day, steps to
Tuesday (day 1) and back to Friday (day -3). -/
theorem c6_witness : (1 : ℤ) ≠ 0 ∧ (-3 : ℤ) ≠ 0 :=
  ⟨(c6_strict_stepping workweekCal 10 0).1 1 (by decide),
    (c6_strict_stepping workweekCal 10 0).2 (-3) (by decide)⟩

/-- Claim C7: `add_business_days` is `roll_forward` followed by `n`
iterated applications of `next_business_day`; with `n = 0` it is exactly
`roll_forward`. -/
theorem c7_add_business_days_iterates (c : Calendar) (fuel : ℕ) (d : ℤ)
    (n : ℕ) :
    add_business_days c fuel d n =
      (roll_forward c fuel d).bind (applyN (next_business_day c fuel) n) ∧
    add_business_days c fuel d 0 = roll_forward c fuel d := by
  constructor
  · unfold add_business_days
    cases roll_forward c fuel d with
    | none => rfl
    | some r => exact add_loop_eq_applyN c fuel n r
  · unfold add_business_days
    cases roll_forward c fuel d <;> rfl

/-- Claim C8: the structured-config conversion defaults an absent
working-day list to Monday–Friday and absent holiday/extra lists to
empty, and feeds the results to the single `try_new` validation step. -/
theorem c8_config_defaults (w : List Weekday) (h e : List ℤ) :
    calendar_try_from ⟨none, none, none⟩ =
        try_new [.mon, .tue, .wed, .thu, .fri] [] [] ∧
    calendar_try_from ⟨none, some h, some e⟩ =
        try_new [.mon, .tue, .wed, .thu, .fri] h e ∧
    calendar_try_from ⟨some w, none, some e⟩ = try_new w [] e ∧
    calendar_try_from ⟨some w, some h, none⟩ = try_new w h [] :=
  ⟨rfl, rfl, rfl, rfl⟩

/-- Claim C9: with a non-empty working-day list, all four stepping loops
terminate within fuel `7 * (holidays.card + 1)`: every run of 7
consecutive days contains a working weekday and only finitely many days
are holidays. -/
theorem c9_termination (c : Calendar) (hne : c.working_days ≠ []) (d : ℤ) :
    (∃ r, roll_forward c (7 * (c.holidays.card + 1)) d = some r) ∧
    (∃ r, roll_backward c (7 * (c.holidays.card + 1)) d = some r) ∧
    (∃ r, next_business_day c (7 * (c.holidays.card + 1)) d = some r) ∧
    (∃ r, previous_business_day c (7 * (c.holidays.card + 1)) d = some r) := by
  obtain ⟨j1, hj1, hb1⟩ := exists_business_fwd c hne d
  obtain ⟨j2, hj2, hb2⟩ := exists_business_bwd c hne d
  obtain ⟨j3, hj3, hb3⟩ := exists_business_fwd c hne (d + 1)
  obtain ⟨j4, hj4, hb4⟩ := exists_business_bwd c hne (d - 1)
  exact ⟨roll_forward_some c _ j1 d hj1 hb1,
    roll_backward_some c _ j2 d hj2 hb2,
    next_business_day_some c _ j3 d hj3 hb3,
    previous_business_day_some c _ j4 d hj4 hb4⟩

/-- Witness for C9: the workweek calendar at Saturday (day 5). -/
theorem c9_witness :
    (∃ r, roll_forward workweekCal
      (7 * (workweekCal.holidays.card + 1)) 5 = some r) ∧
    (∃ r, roll_backward workweekCal
      (7 * (workweekCal.holidays.card + 1)) 5 = some r) ∧
    (∃ r, next_business_day workweekCal
      (7 * (workweekCal.holidays.card + 1)) 5 = some r) ∧
    (∃ r, previous_business_day workweekCal
      (7 * (workweekCal.holidays.card + 1)) 5 = some r) :=
  c9_termination workweekCal (by decide) 5

/-- Claim C10: whenever any of the six operations returns a date, that
date is a business day of the same calendar. -/
theorem c10_outputs_are_business_days (c : Calendar) (fuel : ℕ) (d : ℤ)
    (n : ℕ) :
    (∀ r, roll_forward c fuel d = some r → is_business_day c r = true) ∧
    (∀ r, roll_backward c fuel d = some r → is_business_day c r = true) ∧
    (∀ r, next_business_day c fuel d = some r → is_business_day c r = true) ∧
    (∀ r, previous_business_day c fuel d = some r →
      is_business_day c r = true) ∧
    (∀ r, add_business_days c fuel d n = some r →
      is_business_day c r = true) ∧
    (∀ r, subtract_business_days c fuel d n = some r →
      is_business_day c r = true) := by
  refine ⟨fun r hr => roll_forward_business c fuel d r hr,
    fun r hr => roll_backward_business c fuel d r hr,
    fun r hr => (next_business_day_spec c fuel d r hr).1,
    fun r hr => (previous_business_day_spec c fuel d r hr).1, ?_, ?_⟩
  · intro r hr
    unfold add_business_days at hr
    rw [Option.bind_eq_some] at hr
    obtain ⟨x, hx, hloop⟩ := hr
    exact add_loop_business c fuel n x r hloop
      (roll_forward_business c fuel d x hx)
  · intro r hr
    unfold subtract_business_days at hr
    rw [Option.bind_eq_some] at hr
    obtain ⟨x, hx, hloop⟩ := hr
    exact sub_loop_business c fuel n x r hloop
      (roll_forward_business c fuel d x hx)

/-- Witness for C10: `roll_forward` and `previous_business_day` of
Saturday (day 5) land on business days (Monday 7, Friday 4). -/
theorem c10_witness :
    is_business_day workweekCal 7 = true ∧
      is_business_day workweekCal 4 = true :=
  ⟨(c10_outputs_are_business_days workweekCal 10 5 2).1 7 (by decide),
    (c10_outputs_are_business_days workweekCal 10 5 2).2.2.2.1 4 (by decide)⟩

end CalendarRs

end Business
